import Mathlib

/-!
Shallow embedding of the `puid` crate (a prefixed unique-id generator) and
proofs about it.

The embedding mirrors, definition by definition:
  * `src/error.rs`   — the error type;
  * `src/puid.rs`    — the builder API (`PuidBuilder`), `to_base36`,
                       `rnd_string`, `counter`, `validate`, and the deprecated
                       free function `puid` together with its macro form;
  * `src/lib.rs`     — the legacy crate-root `to_base36`.

Machine integers are modelled as `Nat` (a `u8` value is a `Nat` together with
a `< 256` bound where it matters).  Ambient effects are modelled by explicit
parameters: the wall clock and the process id are fields of an `Env`, the
random source is a stream `Nat → Nat` of raw samples, and the process-wide
atomic counter is threaded as explicit state (each Rust `fetch_update` call
is one atomic step, so a whole execution — concurrent or not — is a sequence
of such steps).
-/

namespace PuidSpec

/-- Error type `PuidError` from `src/error.rs`: the single error kind of the crate. -/
inductive PuidError where
  | InvalidPrefix
deriving DecidableEq, Repr

/-- Result alias `PuidResult<T>` from `src/error.rs`. -/
abbrev PuidResult (α : Type) := Except PuidError α

/-- Constant `BASE_36` from `src/puid.rs`. -/
def BASE_36 : Nat := 36

/-- Constant `DEFAULT_ENTROPY` from `src/puid.rs`. -/
def DEFAULT_ENTROPY : Nat := 12

/-- Constant `PREFIX_MAX_LEN` from `src/puid.rs`. -/
def PREFIX_MAX_LEN : Nat := 8

/-- Constant `PREFIX_MIN_LEN` from `src/puid.rs`. -/
def PREFIX_MIN_LEN : Nat := 1

/-- Maximum value of a `u8`. -/
def U8_MAX : Nat := 255

/-- Rust `char::is_ascii_alphanumeric`: `0-9`, `A-Z` or `a-z`. -/
def is_ascii_alphanumeric (c : Char) : Bool :=
  (48 ≤ c.toNat && c.toNat ≤ 57) ||
  (65 ≤ c.toNat && c.toNat ≤ 90) ||
  (97 ≤ c.toNat && c.toNat ≤ 122)

/-- Rust `char::len_utf8`: number of bytes of the UTF-8 encoding of `c`. -/
def char_len_utf8 (c : Char) : Nat :=
  if c.toNat < 0x80 then 1
  else if c.toNat < 0x800 then 2
  else if c.toNat < 0x10000 then 3
  else 4

/-- Rust `str::len`: length of a string in UTF-8 bytes. -/
def str_len (s : String) : Nat :=
  (s.data.map char_len_utf8).sum

/-- Function `validate` from `src/puid.rs`:
`(PREFIX_MIN_LEN..=PREFIX_MAX_LEN).contains(&prefix.len())
  && prefix.chars().all(|c| c.is_ascii_alphanumeric())`. -/
def validate (p : String) : Bool :=
  (decide (PREFIX_MIN_LEN ≤ str_len p) && decide (str_len p ≤ PREFIX_MAX_LEN))
  && p.data.all is_ascii_alphanumeric

/-- Rust `char::from_digit(d, 36)` for `d < 36`: `0-9` then lowercase `a-z`. -/
def char_from_digit (d : Nat) : Char :=
  if d < 10 then Char.ofNat (48 + d) else Char.ofNat (87 + d)

/-- Loop body of `to_base36` in `src/puid.rs`: pushes base-36 digits of `v`,
least significant first, onto `result` while `v > 0`. -/
def to_base36_go (v : Nat) (result : List Char) : List Char :=
  if 0 < v then
    to_base36_go (v / 36) (result ++ [char_from_digit (v % 36)])
  else
    result
termination_by v
decreasing_by exact Nat.div_lt_self (by assumption) (by norm_num)

/-- Function `to_base36` from `src/puid.rs`: push digits LSB-first, then reverse. -/
def to_base36 (v : Nat) : String :=
  ⟨(to_base36_go v []).reverse⟩

/-- Loop body of the legacy `to_base36` in `src/lib.rs` (accumulates into a
`Vec<char>` rather than a `String`; as a character sequence, the same). -/
def to_base36_lib_go (v : Nat) (chars : List Char) : List Char :=
  if 0 < v then
    to_base36_lib_go (v / 36) (chars ++ [char_from_digit (v % 36)])
  else
    chars
termination_by v
decreasing_by exact Nat.div_lt_self (by assumption) (by norm_num)

/-- Legacy `to_base36` from `src/lib.rs`. -/
def to_base36_lib (v : Nat) : String :=
  ⟨(to_base36_lib_go v []).reverse⟩

/-- Character set of the `rand` crate's `Alphanumeric` distribution
(`GEN_ASCII_STR_CHARSET`): upper-case letters, lower-case letters, digits. -/
def ALPHANUMERIC_CHARSET : List Char :=
  ("ABCDEFGHIJKLMNOPQRSTUVWXYZabcdefghijklmnopqrstuvwxyz0123456789").data

/-- One sample of the `Alphanumeric` distribution: a raw random value `r`
selects uniformly one of the 62 characters of the charset. -/
def alphanumeric_sample (r : Nat) : Char :=
  ALPHANUMERIC_CHARSET.getD (r % 62) (Char.ofNat 65)

/-- Function `rnd_string` from `src/puid.rs`:
`thread_rng().sample_iter(&Alphanumeric).take(elements).map(char::from).collect()`.
The thread-local RNG is modelled by the stream `rng` of raw samples. -/
def rnd_string (rng : Nat → Nat) (elements : Nat) : String :=
  ⟨(List.range elements).map (fun i => alphanumeric_sample (rng i))⟩

/-- Closure passed to `fetch_update` inside `counter` in `src/puid.rs`:
`|i| match i { i if i == u8::MAX => Some(0), _ => Some(i + 1) }`. -/
def counter_update (i : Nat) : Option Nat :=
  if i = U8_MAX then some 0 else some (i + 1)

/-- Atomic `fetch_update` on the counter cell: applies `f` to the current
value `s`; on `some next` stores `next` and returns `Ok` of the previous
value, on `none` returns an error (modelled as `none`). -/
def fetch_update (f : Nat → Option Nat) (s : Nat) : Option (Nat × Nat) :=
  match f s with
  | some next => some (s, next)
  | none => none

/-- Function `counter` from `src/puid.rs`:
`COUNTER.fetch_update(..., counter_update).unwrap()`.  Returns the value
observed before the transition, paired with the new counter state.  The
closure is total, so `unwrap` never panics; `getD` supplies the impossible
default. -/
def counter (s : Nat) : Nat × Nat :=
  (fetch_update counter_update s).getD (s, s)

/-- Ambient inputs of one identifier-assembly call: the wall-clock reading
`time()` (whole milliseconds since the Unix epoch, a `u128`), the OS process
id `std::process::id()` (a `u32`), and the raw sample stream of
`thread_rng()`. -/
structure Env where
  time : Nat
  pid : Nat
  rng : Nat → Nat

/-- Display of a `u8` value in decimal (`u8::to_string`): 1 to 3 decimal
digits, most significant first, no leading zero, `0` displayed as "0".
Total on `Nat`; callers pass a value `< 256`. -/
def u8_to_string (n : Nat) : String :=
  if n < 10 then ⟨[char_from_digit n]⟩
  else if n < 100 then ⟨[char_from_digit (n / 10), char_from_digit (n % 10)]⟩
  else ⟨[char_from_digit (n / 100), char_from_digit (n / 10 % 10),
         char_from_digit (n % 10)]⟩

/-- Struct `PuidBuilder` from `src/puid.rs`: an entropy count (`u8`, the
number of trailing random characters) and a borrowed string used as the id
category tag. -/
structure PuidBuilder where
  entropy : Nat
  pref : String
deriving DecidableEq, Repr

/-- Constructor `PuidBuilder::new`: default entropy, empty tag (the
`..Self::default()` spread). -/
def PuidBuilder.new : PuidBuilder :=
  { entropy := DEFAULT_ENTROPY, pref := "" }

/-- Method `PuidBuilder::prefix`: records the tag when `validate` accepts it,
otherwise fails with ` PuidError.InvalidPrefix` leaving no builder behind. -/
def PuidBuilder.setPref (b : PuidBuilder) (p : String) : PuidResult PuidBuilder :=
  if validate p then Except.ok { b with pref := p }
  else Except.error PuidError.InvalidPrefix

/-- Method `PuidBuilder::entropy`: unconditionally records the entropy
count. -/
def PuidBuilder.setEntropy (b : PuidBuilder) (e : Nat) : PuidBuilder :=
  { b with entropy := e }

/-- Method `PuidBuilder::build` from `src/puid.rs`.  Fails when the tag is
empty; otherwise concatenates the tag, an underscore, the base-36 time, the
decimal counter value, the base-36 process id and the random suffix.  The
counter state is threaded explicitly: the call returns the result together
with the post-call counter state (unchanged on the error path, which returns
before the counter is touched). -/
def PuidBuilder.build (b : PuidBuilder) (env : Env) (ctr : Nat) :
    PuidResult String × Nat :=
  if b.pref.data.isEmpty then (Except.error PuidError.InvalidPrefix, ctr)
  else
    let step := counter ctr
    (Except.ok (b.pref ++ "_" ++ to_base36 env.time ++ u8_to_string step.1
        ++ to_base36 env.pid ++ rnd_string env.rng b.entropy),
      step.2)

/-- Method `Puid::builder` from `src/puid.rs`: hands out a fresh builder. -/
def Puid.builder : PuidBuilder :=
  PuidBuilder.new

/-- Deprecated free function `puid` from `src/puid.rs`.  The failed
`assert!(validate(pref))` terminates the process, modelled as `none`; on a
valid tag it returns the concatenation of the same six parts as `build`.
The post-call counter state is returned alongside (unchanged when the
assertion fires, since the assertion precedes every other effect). -/
def puid (pref : String) (elements : Nat) (env : Env) (ctr : Nat) :
    Option String × Nat :=
  if validate pref then
    let step := counter ctr
    (some (pref ++ "_" ++ to_base36 env.time ++ u8_to_string step.1
        ++ to_base36 env.pid ++ rnd_string env.rng elements),
      step.2)
  else (none, ctr)

/-- One-argument form of the deprecated convenience invocation from
`src/puid.rs` (the `puid!(pref)` expansion): entropy defaults to 12. -/
def puid_one_arg (pref : String) (env : Env) (ctr : Nat) : Option String × Nat :=
  puid pref 12 env ctr

/-- Two-argument form of the deprecated convenience invocation (the
`puid!(pref, n)` expansion). -/
def puid_two_args (pref : String) (elements : Nat) (env : Env) (ctr : Nat) :
    Option String × Nat :=
  puid pref elements env ctr

/-- Observations of `n` consecutive atomic `counter` calls starting from
counter state `s`: the list of returned (pre-transition) values, paired with
the final state. -/
def counterRun : Nat → Nat → List Nat × Nat
  | 0, s => ([], s)
  | n + 1, s =>
    let step := counter s
    let rest := counterRun n step.2
    (step.1 :: rest.1, rest.2)

/-- Interleaved execution of `counter` calls by several threads.  A schedule
lists, in global linearization order, which thread performs each atomic
`fetch_update`; the run records which value each thread observed.  Every call
is a single indivisible step on the shared cell, so the schedule fully
determines the execution. -/
def runSchedule : List Nat → Nat → List (Nat × Nat) × Nat
  | [], s => ([], s)
  | tid :: rest, s =>
    let step := counter s
    let tail := runSchedule rest step.2
    ((tid, step.1) :: tail.1, tail.2)

/-- Base-36 digit set used by `to_base36`: `0-9` and lowercase `a-z`. -/
def is_base36_digit (c : Char) : Bool :=
  (48 ≤ c.toNat && c.toNat ≤ 57) || (97 ≤ c.toNat && c.toNat ≤ 122)

/-- Numeric value of a base-36 digit character (inverse of
`char_from_digit`). -/
def base36_digit_val (c : Char) : Nat :=
  if 97 ≤ c.toNat then c.toNat - 87 else c.toNat - 48

/-- Reads a base-36 string most-significant digit first. -/
def decode_base36 (cs : List Char) : Nat :=
  cs.foldl (fun acc c => acc * 36 + base36_digit_val c) 0

/-- Numeric value of a decimal digit character. -/
def dec_digit_val (c : Char) : Nat :=
  c.toNat - 48

/-- Reads a decimal string most-significant digit first. -/
def decode_decimal (cs : List Char) : Nat :=
  cs.foldl (fun acc c => acc * 10 + dec_digit_val c) 0

/-- Decimal digit set. -/
def is_dec_digit (c : Char) : Bool :=
  48 ≤ c.toNat && c.toNat ≤ 57

/-! ### Lemmas about the base-36 encoder -/

theorem to_base36_go_eq (v : Nat) (acc : List Char) :
    to_base36_go v acc =
      if 0 < v then to_base36_go (v / 36) (acc ++ [char_from_digit (v % 36)])
      else acc := by
  rw [to_base36_go]

theorem to_base36_lib_go_eq (v : Nat) (chars : List Char) :
    to_base36_lib_go v chars =
      if 0 < v then to_base36_lib_go (v / 36) (chars ++ [char_from_digit (v % 36)])
      else chars := by
  rw [to_base36_lib_go]

theorem to_base36_go_append (v : Nat) :
    ∀ acc : List Char, to_base36_go v acc = acc ++ to_base36_go v [] := by
  induction v using Nat.strong_induction_on with
  | _ v ih =>
    intro acc
    rw [to_base36_go_eq v acc, to_base36_go_eq v []]
    by_cases h : 0 < v
    · simp only [if_pos h]
      rw [ih (v / 36) (Nat.div_lt_self h (by norm_num)),
          ih (v / 36) (Nat.div_lt_self h (by norm_num)) ([] ++ [char_from_digit (v % 36)])]
      simp
    · simp [h]

theorem to_base36_data_eq (v : Nat) :
    (to_base36 v).data =
      if v = 0 then []
      else (to_base36 (v / 36)).data ++ [char_from_digit (v % 36)] := by
  by_cases h : v = 0
  · simp [h, to_base36, to_base36_go_eq]
  · have hpos : 0 < v := Nat.pos_of_ne_zero h
    simp only [if_neg h, to_base36]
    rw [to_base36_go_eq v [], if_pos hpos, to_base36_go_append (v / 36)]
    simp

theorem char_from_digit_val : ∀ d, d < 36 → base36_digit_val (char_from_digit d) = d := by
  decide

theorem char_from_digit_base36 : ∀ d, d < 36 → is_base36_digit (char_from_digit d) = true := by
  decide

theorem char_from_digit_ne_zero : ∀ d, d < 36 → 0 < d → char_from_digit d ≠ ('0' : Char) := by
  decide

theorem char_from_digit_dec : ∀ d, d < 10 →
    is_dec_digit (char_from_digit d) = true ∧ dec_digit_val (char_from_digit d) = d := by
  decide

theorem decode_base36_append (xs : List Char) (c : Char) :
    decode_base36 (xs ++ [c]) = decode_base36 xs * 36 + base36_digit_val c := by
  simp [decode_base36]

theorem decode_to_base36 (v : Nat) : decode_base36 (to_base36 v).data = v := by
  induction v using Nat.strong_induction_on with
  | _ v ih =>
    rw [to_base36_data_eq]
    by_cases h : v = 0
    · simp [h, decode_base36]
    · have hpos : 0 < v := Nat.pos_of_ne_zero h
      rw [if_neg h, decode_base36_append,
          ih (v / 36) (Nat.div_lt_self hpos (by norm_num)),
          char_from_digit_val (v % 36) (Nat.mod_lt v (by norm_num))]
      omega

theorem to_base36_digits (v : Nat) :
    ∀ c ∈ (to_base36 v).data, is_base36_digit c = true := by
  induction v using Nat.strong_induction_on with
  | _ v ih =>
    intro c hc
    rw [to_base36_data_eq] at hc
    by_cases h : v = 0
    · simp [h] at hc
    · rw [if_neg h] at hc
      rcases List.mem_append.mp hc with hmem | hmem
      · exact ih (v / 36) (Nat.div_lt_self (Nat.pos_of_ne_zero h) (by norm_num)) c hmem
      · have : c = char_from_digit (v % 36) := by simpa using hmem
        rw [this]
        exact char_from_digit_base36 (v % 36) (Nat.mod_lt v (by norm_num))

theorem to_base36_ne_nil (v : Nat) (h : 0 < v) : (to_base36 v).data ≠ [] := by
  rw [to_base36_data_eq, if_neg (Nat.pos_iff_ne_zero.mp h)]
  simp

theorem to_base36_no_leading_zero (v : Nat) (h : 0 < v) :
    (to_base36 v).data.head? ≠ some ('0' : Char) := by
  induction v using Nat.strong_induction_on with
  | _ v ih =>
    rw [to_base36_data_eq, if_neg (Nat.pos_iff_ne_zero.mp h)]
    by_cases hq : v / 36 = 0
    · have hlt : v < 36 := by omega
      have hmod : v % 36 = v := Nat.mod_eq_of_lt hlt
      rw [to_base36_data_eq, hq, if_pos rfl, List.nil_append, hmod]
      simp only [List.head?_cons]
      exact fun hcontra =>
        char_from_digit_ne_zero v hlt h (Option.some.inj hcontra)
    · have hqpos : 0 < v / 36 := Nat.pos_of_ne_zero hq
      rw [List.head?_append_of_ne_nil _ (to_base36_ne_nil (v / 36) hqpos)]
      exact ih (v / 36) (Nat.div_lt_self h (by norm_num)) hqpos

theorem to_base36_go_eq_lib_go (v : Nat) :
    ∀ acc : List Char, to_base36_go v acc = to_base36_lib_go v acc := by
  induction v using Nat.strong_induction_on with
  | _ v ih =>
    intro acc
    rw [to_base36_go_eq, to_base36_lib_go_eq]
    by_cases h : 0 < v
    · simp only [if_pos h]
      exact ih (v / 36) (Nat.div_lt_self h (by norm_num)) _
    · simp [h]

theorem to_base36_fixture : to_base36 1651312057 = ("rb5cjd" : String) := by
  have h : ∀ v : Nat, (to_base36 v).data =
      (if v = 0 then [] else (to_base36 (v / 36)).data ++ [char_from_digit (v % 36)]) :=
    to_base36_data_eq
  apply String.ext
  rw [h 1651312057]
  norm_num
  rw [h 45869779]
  norm_num
  rw [h 1274160]
  norm_num
  rw [h 35393]
  norm_num
  rw [h 983]
  norm_num
  rw [h 27]
  norm_num
  rw [h 0]
  norm_num
  decide

theorem to_base36_zero : to_base36 0 = ("" : String) := by
  apply String.ext
  rw [to_base36_data_eq]
  simp

/-- C4: for every unsigned value `v`, `to_base36` returns the positional
base-36 representation of `v` using digits `0-9` then lowercase `a-z`,
most-significant digit first with no leading zero; the degenerate value 0
encodes to the empty string; in particular `to_base36 1651312057 = "rb5cjd"`
and `to_base36 0 = ""`. -/
theorem to_base36_correct (v : Nat) :
    decode_base36 (to_base36 v).data = v
    ∧ (∀ c ∈ (to_base36 v).data, is_base36_digit c = true)
    ∧ (0 < v → (to_base36 v).data.head? ≠ some ('0' : Char))
    ∧ to_base36 0 = ("" : String)
    ∧ to_base36 1651312057 = ("rb5cjd" : String) :=
  ⟨decode_to_base36 v, to_base36_digits v,
    fun h => to_base36_no_leading_zero v h, to_base36_zero, to_base36_fixture⟩

/-- Witness for C4 at `v = 36`: the no-leading-zero hypothesis `0 < 36` is
discharged concretely. -/
theorem to_base36_correct_witness :
    0 < 36 ∧ (to_base36 36).data.head? ≠ some ('0' : Char) :=
  ⟨by norm_num, (to_base36_correct 36).2.2.1 (by norm_num)⟩

/-- C10: the builder-module `to_base36` (`src/puid.rs`) and the legacy
crate-root `to_base36` (`src/lib.rs`) are extensionally equal. -/
theorem to_base36_eq_to_base36_lib (v : Nat) : to_base36 v = to_base36_lib v := by
  simp [to_base36, to_base36_lib, to_base36_go_eq_lib_go]

/-! ### Lemmas about prefix validation -/

theorem alnum_toNat_bounds (c : Char) (h : is_ascii_alphanumeric c = true) :
    48 ≤ c.toNat ∧ c.toNat ≤ 122 := by
  simp only [is_ascii_alphanumeric, Bool.or_eq_true, Bool.and_eq_true,
    decide_eq_true_eq] at h
  omega

theorem char_len_utf8_alnum (c : Char) (h : is_ascii_alphanumeric c = true) :
    char_len_utf8 c = 1 := by
  have hb := alnum_toNat_bounds c h
  simp only [char_len_utf8]
  rw [if_pos (by omega)]

theorem str_len_of_alnum (l : List Char)
    (h : ∀ c ∈ l, is_ascii_alphanumeric c = true) :
    (l.map char_len_utf8).sum = l.length := by
  induction l with
  | nil => simp
  | cons c cs ih =>
    simp only [List.map_cons, List.sum_cons, List.length_cons]
    rw [char_len_utf8_alnum c (h c (List.mem_cons_self c cs)),
      ih (fun x hx => h x (List.mem_cons_of_mem c hx))]
    omega

theorem validate_iff (p : String) :
    validate p = true ↔
      (1 ≤ p.length ∧ p.length ≤ 8 ∧ ∀ c ∈ p.data, is_ascii_alphanumeric c = true) := by
  have hlen : p.length = p.data.length := rfl
  constructor
  · intro h
    simp only [validate, PREFIX_MIN_LEN, PREFIX_MAX_LEN, Bool.and_eq_true,
      decide_eq_true_eq, List.all_eq_true] at h
    obtain ⟨⟨h1, h2⟩, h3⟩ := h
    have hsum : str_len p = p.data.length := str_len_of_alnum p.data h3
    rw [hlen]
    exact ⟨by omega, by omega, h3⟩
  · intro ⟨h1, h2, h3⟩
    simp only [validate, PREFIX_MIN_LEN, PREFIX_MAX_LEN, Bool.and_eq_true,
      decide_eq_true_eq, List.all_eq_true]
    have hsum : str_len p = p.data.length := str_len_of_alnum p.data h3
    rw [hlen] at h1 h2
    exact ⟨⟨by omega, by omega⟩, h3⟩

/-- C2: setting a string `p` as the builder's category tag succeeds,
recording `p`, exactly when `p` has between 1 and 8 characters, all ASCII
alphanumeric; otherwise it fails with the invalid-prefix error and produces
no builder. -/
theorem setPref_spec (b : PuidBuilder) (p : String) :
    (b.setPref p = Except.ok { b with pref := p } ↔
      (1 ≤ p.length ∧ p.length ≤ 8 ∧ ∀ c ∈ p.data, is_ascii_alphanumeric c = true))
    ∧ (b.setPref p = Except.error PuidError.InvalidPrefix ↔
      ¬ (1 ≤ p.length ∧ p.length ≤ 8 ∧ ∀ c ∈ p.data, is_ascii_alphanumeric c = true)) := by
  by_cases hv : validate p
  · obtain ⟨h1, h2, h3⟩ := (validate_iff p).mp hv
    have hok : b.setPref p = Except.ok { b with pref := p } := by
      simp [PuidBuilder.setPref, hv]
    refine ⟨⟨fun _ => ⟨h1, h2, h3⟩, fun _ => hok⟩, ?_, ?_⟩
    · intro herr
      rw [hok] at herr
      exact absurd herr (by simp)
    · intro hneg
      exact absurd ⟨h1, h2, h3⟩ hneg
  · have hspec : ¬ (1 ≤ p.length ∧ p.length ≤ 8 ∧
        ∀ c ∈ p.data, is_ascii_alphanumeric c = true) := by
      intro hcontr
      exact hv ((validate_iff p).mpr hcontr)
    simp [PuidBuilder.setPref, hv, hspec]

/-- Witness for C2 at the concrete tag "foo" and the rejected tags "" and
"toolongprefix". -/
theorem setPref_spec_witness :
    PuidBuilder.new.setPref ("foo") = Except.ok { PuidBuilder.new with pref := ("foo") }
    ∧ PuidBuilder.new.setPref ("") = Except.error PuidError.InvalidPrefix
    ∧ PuidBuilder.new.setPref ("toolongprefix") = Except.error PuidError.InvalidPrefix :=
  ⟨(setPref_spec PuidBuilder.new ("foo")).1.mpr (by decide),
   (setPref_spec PuidBuilder.new ("")).2.mpr (by decide),
   (setPref_spec PuidBuilder.new ("toolongprefix")).2.mpr (by decide)⟩

/-! ### Lemmas about the atomic counter -/

theorem counter_eq (s : Nat) :
    counter s = (s, if s = U8_MAX then 0 else s + 1) := by
  by_cases h : s = U8_MAX <;> simp [counter, fetch_update, counter_update, h]

theorem counter_mod (s : Nat) (h : s < 256) :
    counter s = (s, (s + 1) % 256) := by
  rw [counter_eq]
  by_cases h255 : s = U8_MAX
  · rw [if_pos h255, h255]
    rfl
  · rw [if_neg h255]
    have hne : s ≠ 255 := by simpa [U8_MAX] using h255
    have : s + 1 < 256 := by omega
    rw [Nat.mod_eq_of_lt this]

theorem counterRun_succ (n s : Nat) :
    counterRun (n + 1) s =
      ((counter s).1 :: (counterRun n (counter s).2).1,
        (counterRun n (counter s).2).2) :=
  rfl

theorem counterRun_obs (n : Nat) :
    ∀ s, s < 256 → (counterRun n s).1 = (List.range n).map (fun k => (s + k) % 256) := by
  induction n with
  | zero => intro s hs; simp [counterRun]
  | succ n ih =>
    intro s hs
    have hstep : counter s = (s, (s + 1) % 256) := counter_mod s hs
    have hlt : (s + 1) % 256 < 256 := Nat.mod_lt _ (by norm_num)
    rw [List.range_succ_eq_map, List.map_cons, List.map_map, counterRun_succ, hstep]
    simp only
    rw [ih ((s + 1) % 256) hlt]
    congr 1
    · omega
    · refine List.map_congr_left fun k hk => ?_
      simp only [Function.comp_apply]
      omega

theorem range_map_mod (n : Nat) (h : n ≤ 256) :
    (List.range n).map (fun k => (0 + k) % 256) = List.range n := by
  have hcongr : ∀ k ∈ List.range n, (0 + k) % 256 = id k := by
    intro k hk
    rw [List.mem_range] at hk
    simp only [id]
    omega
  rw [List.map_congr_left hcongr, List.map_id]

/-- C3: the counter transition is `next = (current == 255) ? 0 : current + 1`
with the pre-transition value returned; from the initial state 0, the 256
first calls return `0, 1, ..., 255` in order and the 257th returns 0. -/
theorem counter_protocol :
    (∀ s, counter s = (s, if s = 255 then 0 else s + 1))
    ∧ (counterRun 256 0).1 = List.range 256
    ∧ (counterRun 257 0).1 = List.range 256 ++ [0] := by
  refine ⟨fun s => ?_, ?_, ?_⟩
  · simpa [U8_MAX] using counter_eq s
  · rw [counterRun_obs 256 0 (by norm_num)]
    exact range_map_mod 256 (by norm_num)
  · rw [counterRun_obs 257 0 (by norm_num), List.range_succ, List.map_append,
      range_map_mod 256 (by norm_num)]
    norm_num

/-- Values observed across an interleaved multi-thread execution, in global
linearization order. -/
theorem runSchedule_obs (sched : List Nat) :
    ∀ s, (runSchedule sched s).1.map Prod.snd = (counterRun sched.length s).1 := by
  induction sched with
  | nil => intro s; rfl
  | cons tid rest ih =>
    intro s
    show (counter s).1 :: (runSchedule rest (counter s).2).1.map Prod.snd
        = (counter s).1 :: (counterRun rest.length (counter s).2).1
    rw [ih (counter s).2]

/-- C7: in any interleaving of atomic counter calls by any threads (each
call is one indivisible `fetch_update`), the values observed between two
wraps are pairwise distinct — positions in the same 256-call epoch never
repeat a value — and within each complete epoch no value of `[0, 255]` is
skipped. -/
theorem counter_concurrent (sched : List Nat) :
    (∀ i j, i < sched.length → j < sched.length → i ≠ j → i / 256 = j / 256 →
      ((runSchedule sched 0).1.map Prod.snd)[i]?
        ≠ ((runSchedule sched 0).1.map Prod.snd)[j]?)
    ∧ (∀ e v, v < 256 → (e + 1) * 256 ≤ sched.length →
      ((runSchedule sched 0).1.map Prod.snd)[e * 256 + v]? = some v) := by
  have hobs : (runSchedule sched 0).1.map Prod.snd
      = (List.range sched.length).map (fun k => (0 + k) % 256) := by
    rw [runSchedule_obs sched 0, counterRun_obs sched.length 0 (by norm_num)]
  constructor
  · intro i j hi hj hij hepoch
    rw [hobs, List.getElem?_map, List.getElem?_map,
      List.getElem?_range hi, List.getElem?_range hj]
    simp only [Option.map_some', ne_eq, Option.some.injEq]
    omega
  · intro e v hv hlen
    have hidx : e * 256 + v < sched.length := by nlinarith
    rw [hobs, List.getElem?_map, List.getElem?_range hidx]
    simp only [Option.map_some', Option.some.injEq]
    omega

/-- Witness for C7: a two-call schedule by two threads observes two distinct
values, and in a full 256-call epoch position 5 holds the value 5. -/
theorem counter_concurrent_witness :
    ((runSchedule ([0, 1]) 0).1.map Prod.snd)[0]?
      ≠ ((runSchedule ([0, 1]) 0).1.map Prod.snd)[1]?
    ∧ ((runSchedule (List.replicate 256 7) 0).1.map Prod.snd)[0 * 256 + 5]? = some 5 :=
  ⟨(counter_concurrent ([0, 1])).1 0 1 (by norm_num) (by norm_num)
      (by norm_num) (by norm_num),
    (counter_concurrent (List.replicate 256 7)).2 0 5 (by norm_num)
      (by simp only [List.length_replicate]; norm_num)⟩

/-! ### Lemmas about the decimal counter field, the random suffix and build -/

theorem counter_fst (s : Nat) : (counter s).1 = s := by
  rw [counter_eq]

theorem u8_to_string_spec (n : Nat) (h : n < 256) :
    decode_decimal (u8_to_string n).data = n
    ∧ 1 ≤ (u8_to_string n).length ∧ (u8_to_string n).length ≤ 3
    ∧ ∀ c ∈ (u8_to_string n).data, is_dec_digit c = true := by
  rw [u8_to_string]
  by_cases h10 : n < 10
  · rw [if_pos h10]
    refine ⟨?_, by simp [String.length], by simp [String.length], ?_⟩
    · simp only [decode_decimal, List.foldl_cons, List.foldl_nil]
      rw [(char_from_digit_dec n h10).2]
      omega
    · intro c hc
      have : c = char_from_digit n := by simpa using hc
      rw [this]
      exact (char_from_digit_dec n h10).1
  · rw [if_neg h10]
    by_cases h100 : n < 100
    · rw [if_pos h100]
      have hq : n / 10 < 10 := by omega
      have hr : n % 10 < 10 := by omega
      refine ⟨?_, by simp [String.length], by simp [String.length], ?_⟩
      · simp only [decode_decimal, List.foldl_cons, List.foldl_nil]
        rw [(char_from_digit_dec (n / 10) hq).2, (char_from_digit_dec (n % 10) hr).2]
        omega
      · intro c hc
        rcases (by simpa using hc : c = char_from_digit (n / 10)
            ∨ c = char_from_digit (n % 10)) with rfl | rfl
        · exact (char_from_digit_dec (n / 10) hq).1
        · exact (char_from_digit_dec (n % 10) hr).1
    · rw [if_neg h100]
      have hq : n / 100 < 10 := by omega
      have hm : n / 10 % 10 < 10 := by omega
      have hr : n % 10 < 10 := by omega
      refine ⟨?_, by simp [String.length], by simp [String.length], ?_⟩
      · simp only [decode_decimal, List.foldl_cons, List.foldl_nil]
        rw [(char_from_digit_dec (n / 100) hq).2, (char_from_digit_dec (n / 10 % 10) hm).2,
          (char_from_digit_dec (n % 10) hr).2]
        omega
      · intro c hc
        rcases (by simpa using hc : c = char_from_digit (n / 100)
            ∨ c = char_from_digit (n / 10 % 10) ∨ c = char_from_digit (n % 10))
          with rfl | rfl | rfl
        · exact (char_from_digit_dec (n / 100) hq).1
        · exact (char_from_digit_dec (n / 10 % 10) hm).1
        · exact (char_from_digit_dec (n % 10) hr).1

theorem alphanumeric_sample_alnum (r : Nat) :
    is_ascii_alphanumeric (alphanumeric_sample r) = true := by
  have h62 : r % 62 < 62 := Nat.mod_lt _ (by norm_num)
  have hall : ∀ i, i < 62 →
      is_ascii_alphanumeric (ALPHANUMERIC_CHARSET.getD i (Char.ofNat 65)) = true := by
    decide
  exact hall (r % 62) h62

theorem rnd_string_length (rng : Nat → Nat) (n : Nat) :
    (rnd_string rng n).length = n := by
  show ((List.range n).map fun i => alphanumeric_sample (rng i)).length = n
  rw [List.length_map, List.length_range]

theorem rnd_string_alnum (rng : Nat → Nat) (n : Nat) :
    ∀ c ∈ (rnd_string rng n).data, is_ascii_alphanumeric c = true := by
  intro c hc
  have hc2 : c ∈ (List.range n).map fun i => alphanumeric_sample (rng i) := hc
  obtain ⟨i, _, rfl⟩ := List.mem_map.mp hc2
  exact alphanumeric_sample_alnum (rng i)

theorem string_eq_empty_iff (s : String) : s = ("" : String) ↔ s.data = [] := by
  constructor
  · intro h
    rw [h]
  · intro h
    exact String.ext h

theorem build_ok (b : PuidBuilder) (env : Env) (ctr : Nat) (h : b.pref ≠ ("" : String)) :
    PuidBuilder.build b env ctr =
      (Except.ok (b.pref ++ "_" ++ to_base36 env.time ++ u8_to_string ctr
        ++ to_base36 env.pid ++ rnd_string env.rng b.entropy), (counter ctr).2) := by
  have hdata : ¬ b.pref.data.isEmpty = true := by
    rw [List.isEmpty_iff]
    exact fun hcontra => h ((string_eq_empty_iff b.pref).mpr hcontra)
  rw [PuidBuilder.build, if_neg hdata]
  show (Except.ok (b.pref ++ "_" ++ to_base36 env.time ++ u8_to_string (counter ctr).1
      ++ to_base36 env.pid ++ rnd_string env.rng b.entropy), (counter ctr).2) = _
  rw [counter_fst]

theorem build_err (b : PuidBuilder) (env : Env) (ctr : Nat) (h : b.pref = ("" : String)) :
    PuidBuilder.build b env ctr = (Except.error PuidError.InvalidPrefix, ctr) := by
  have hdata : b.pref.data.isEmpty = true := by
    rw [List.isEmpty_iff, ← string_eq_empty_iff]
    exact h
  rw [PuidBuilder.build, if_pos hdata]

/-- C1: after a successful prefix-setting call, `build` returns `Ok` of the
concatenation, in order, of the tag verbatim, one underscore, the base-36
time, the 1-to-3-digit base-10 decimal string of the counter value this call
observed, the base-36 process id, and a random alphanumeric string whose
length is the builder's entropy. -/
theorem build_after_setPref (b bp : PuidBuilder) (p : String) (env : Env) (ctr : Nat)
    (hset : b.setPref p = Except.ok bp) (hctr : ctr < 256) :
    (PuidBuilder.build bp env ctr).1 =
      Except.ok (p ++ "_" ++ to_base36 env.time ++ u8_to_string ctr
        ++ to_base36 env.pid ++ rnd_string env.rng bp.entropy)
    ∧ decode_decimal (u8_to_string ctr).data = ctr
    ∧ 1 ≤ (u8_to_string ctr).length ∧ (u8_to_string ctr).length ≤ 3
    ∧ (∀ c ∈ (u8_to_string ctr).data, is_dec_digit c = true)
    ∧ (rnd_string env.rng bp.entropy).length = bp.entropy
    ∧ (∀ c ∈ (rnd_string env.rng bp.entropy).data, is_ascii_alphanumeric c = true) := by
  have hv : validate p = true := by
    by_cases hcase : validate p
    · exact hcase
    · rw [PuidBuilder.setPref, if_neg hcase] at hset
      exact absurd hset (by simp)
  have hbp : bp = { b with pref := p } := by
    rw [PuidBuilder.setPref, if_pos hv] at hset
    exact (Except.ok.inj hset).symm
  have hnonempty : bp.pref ≠ ("" : String) := by
    rw [hbp]
    intro hcontra
    have hlen := ((validate_iff p).mp hv).1
    have : p.data = [] := (string_eq_empty_iff p).mp hcontra
    have : p.length = 0 := by
      show p.data.length = 0
      rw [this]
      rfl
    omega
  have hu8 := u8_to_string_spec ctr hctr
  refine ⟨?_, hu8.1, hu8.2.1, hu8.2.2.1, hu8.2.2.2,
    rnd_string_length env.rng bp.entropy, rnd_string_alnum env.rng bp.entropy⟩
  rw [build_ok bp env ctr hnonempty]
  show Except.ok _ = Except.ok _
  rw [hbp]

/-- Witness for C1: builder with tag "foo", counter state 0, a concrete
environment. -/
theorem build_after_setPref_witness :
    PuidBuilder.new.setPref ("foo") = Except.ok (⟨12, ("foo")⟩ : PuidBuilder)
    ∧ (0 : Nat) < 256
    ∧ (PuidBuilder.build (⟨12, ("foo")⟩ : PuidBuilder) ⟨1651312057, 4242, fun k => k⟩ 0).1 =
      Except.ok (("foo" : String) ++ "_" ++ to_base36 1651312057 ++ u8_to_string 0
        ++ to_base36 4242 ++ rnd_string (fun k => k) 12) :=
  ⟨rfl, by decide,
    (build_after_setPref PuidBuilder.new ⟨12, ("foo")⟩ ("foo")
      ⟨1651312057, 4242, fun k => k⟩ 0 rfl (by decide)).1⟩

/-- C5: `build` fails, with the invalid-prefix error, exactly when the
builder's tag is empty (never set); with a non-empty tag it always returns
`Ok`. -/
theorem build_error_iff (b : PuidBuilder) (env : Env) (ctr : Nat) :
    ((PuidBuilder.build b env ctr).1 = Except.error PuidError.InvalidPrefix ↔
      b.pref = ("" : String))
    ∧ (b.pref ≠ ("" : String) → (PuidBuilder.build b env ctr).1 =
        Except.ok (b.pref ++ "_" ++ to_base36 env.time ++ u8_to_string ctr
          ++ to_base36 env.pid ++ rnd_string env.rng b.entropy)) := by
  by_cases h : b.pref = ("" : String)
  · refine ⟨⟨fun _ => h, fun _ => ?_⟩, fun hne => absurd h hne⟩
    rw [build_err b env ctr h]
  · refine ⟨⟨fun hcontra => ?_, fun heq => absurd heq h⟩, fun _ => ?_⟩
    · rw [build_ok b env ctr h] at hcontra
      exact absurd hcontra (by simp)
    · rw [build_ok b env ctr h]

/-- Witness for C5: a builder holding the non-empty tag "foo" builds `Ok`. -/
theorem build_error_iff_witness :
    (⟨12, ("foo")⟩ : PuidBuilder).pref ≠ ("" : String)
    ∧ (PuidBuilder.build (⟨12, ("foo")⟩ : PuidBuilder) ⟨1, 2, fun k => k⟩ 5).1 =
      Except.ok (("foo" : String) ++ "_" ++ to_base36 1 ++ u8_to_string 5
        ++ to_base36 2 ++ rnd_string (fun k => k) 12) :=
  ⟨by decide, (build_error_iff ⟨12, ("foo")⟩ ⟨1, 2, fun k => k⟩ 5).2 (by decide)⟩

/-- C6: for every entropy value `n` — any value accepted unconditionally by
the entropy setter — the random-suffix generator produces exactly `n`
characters, each ASCII alphanumeric, and the empty string for `n = 0`. -/
theorem rnd_string_spec (rng : Nat → Nat) (n : Nat) (b : PuidBuilder) :
    (rnd_string rng n).length = n
    ∧ (∀ c ∈ (rnd_string rng n).data, is_ascii_alphanumeric c = true)
    ∧ rnd_string rng 0 = ("" : String)
    ∧ (b.setEntropy n).entropy = n :=
  ⟨rnd_string_length rng n, rnd_string_alnum rng n, rfl, rfl⟩

/-- Witness for C6 at a concrete stream and `n = 3` (the membership
hypothesis of the all-characters part is discharged at the first
character). -/
theorem rnd_string_spec_witness :
    (rnd_string (fun k => k) 3).length = 3
    ∧ (('A' : Char) ∈ (rnd_string (fun k => k) 3).data →
        is_ascii_alphanumeric ('A' : Char) = true) :=
  ⟨(rnd_string_spec (fun k => k) 3 PuidBuilder.new).1,
    fun hmem => (rnd_string_spec (fun k => k) 3 PuidBuilder.new).2.1 ('A') hmem⟩

/-- C8: a freshly created builder has entropy 12 and an empty (unset) tag,
and building it without ever setting a tag fails. -/
theorem new_builder_defaults :
    PuidBuilder.new.entropy = 12 ∧ PuidBuilder.new.pref = ("" : String)
    ∧ Puid.builder = PuidBuilder.new
    ∧ ∀ (env : Env) (ctr : Nat), (PuidBuilder.build PuidBuilder.new env ctr).1 =
        Except.error PuidError.InvalidPrefix := by
  refine ⟨rfl, rfl, rfl, fun env ctr => ?_⟩
  rw [build_err PuidBuilder.new env ctr rfl]

/-- C9: the deprecated one-call function terminates the process (modelled
`none`) exactly when its tag fails validation; on a valid tag it returns the
assembled identifier with no recoverable error path, and the convenience
forms delegate to it with entropy defaulting to 12. -/
theorem puid_deprecated_spec (p : String) (elements : Nat) (env : Env) (ctr : Nat) :
    ((puid p elements env ctr).1 = none ↔ validate p = false)
    ∧ (validate p = true → (puid p elements env ctr).1 =
        some (p ++ "_" ++ to_base36 env.time ++ u8_to_string (counter ctr).1
          ++ to_base36 env.pid ++ rnd_string env.rng elements))
    ∧ puid_one_arg p env ctr = puid p 12 env ctr
    ∧ puid_two_args p elements env ctr = puid p elements env ctr := by
  by_cases hv : validate p
  · refine ⟨⟨fun hcontra => ?_, fun hfalse => ?_⟩, fun _ => ?_, rfl, rfl⟩
    · rw [puid, if_pos hv] at hcontra
      exact absurd hcontra (by simp)
    · rw [hv] at hfalse
      exact absurd hfalse (by simp)
    · rw [puid, if_pos hv]
  · refine ⟨⟨fun _ => by simpa using hv, fun _ => ?_⟩, fun htrue => absurd htrue hv,
      rfl, rfl⟩
    rw [puid, if_neg hv]

/-- Witness for C9: the valid tag "foo" yields the assembled identifier. -/
theorem puid_deprecated_spec_witness :
    validate ("foo") = true
    ∧ (puid ("foo") 2 ⟨7, 9, fun k => k⟩ 3).1 =
      some (("foo" : String) ++ "_" ++ to_base36 7 ++ u8_to_string (counter 3).1
        ++ to_base36 9 ++ rnd_string (fun k => k) 2) :=
  ⟨by decide, (puid_deprecated_spec ("foo") 2 ⟨7, 9, fun k => k⟩ 3).2.1 (by decide)⟩

end PuidSpec
